import Mathlib

/-
Verification of the display-compositing and panel-protocol subsystem of
kitchenthing: the two-plane bit-packed framebuffer, the palette
quantizer/ditherer, the text-placement geometry and the panel command
protocol.  Definitions are shallow embeddings of the Go source
(waveshare.go, main.go); machine bytes are modelled as Nat with explicit
masking where Go truncates, and Go int32 arithmetic as Int (no reachable
value overflows int32 in the modelled code paths).
-/

namespace Kitchenthing

/-! ## Bitmap planes (waveshare.go) -/

/-- One bit-per-pixel plane, packed 8 pixels per byte, MSB = leftmost.
Mirrors Go `type bitmap struct { bits []byte; width, height int }`;
bytes are Nats kept below 256 by the operations. -/
structure bitmap where
  bits : List Nat
  width : Nat
  height : Nat
  deriving DecidableEq, Repr

/-- Unchecked constructor body of Go `newBitmap`: `make([]byte, width*height/8)`. -/
def mkBitmap (width height : Nat) : bitmap :=
  { bits := List.replicate (width * height / 8) 0, width := width, height := height }

/-- Go `newBitmap` panics when `width&0x07 != 0`; the panic is modelled as `none`. -/
def newBitmap (width height : Nat) : Option bitmap :=
  if width &&& 0x07 != 0 then none else some (mkBitmap width height)

/-- Go `bitmap.clearAll`: every byte is forced to 0. -/
def bitmap.clearAll (b : bitmap) : bitmap :=
  { b with bits := b.bits.map fun _ => 0 }

/-- Go `bitmap.setAll`: every byte is forced to 0xFF. -/
def bitmap.setAll (b : bitmap) : bitmap :=
  { b with bits := b.bits.map fun _ => 0xFF }

/-- Go `bitmap.clear`: `bits[i] &^= byte(j)`.  For bytes below 256 the Go
and-not `a &^ j` equals `a &&& (0xFF ^^^ j)`. -/
def bitmap.clear (b : bitmap) (x y : Nat) : bitmap :=
  let off := x + y * b.width
  let i := off / 8
  let j := 1 <<< (7 - (off &&& 0x07))
  { b with bits := b.bits.set i ((b.bits.getD i 0) &&& (0xFF ^^^ j)) }

/-- Go `bitmap.set`: `bits[i] |= byte(j)`. -/
def bitmap.set (b : bitmap) (x y : Nat) : bitmap :=
  let off := x + y * b.width
  let i := off / 8
  let j := 1 <<< (7 - (off &&& 0x07))
  { b with bits := b.bits.set i ((b.bits.getD i 0) ||| j) }

/-- Go `bitmap.get`, faithfully including its use of `|` (bitwise or) rather
than `&`: `return b.bits[i]|byte(j) != 0`, which Go parses as
`(b.bits[i] | byte(j)) != 0`. -/
def bitmap.get (b : bitmap) (x y : Nat) : Bool :=
  let off := x + y * b.width
  let i := off / 8
  let j := 1 <<< (7 - (off &&& 0x07))
  ((b.bits.getD i 0) ||| j) != 0

/-- Go `bitmap.subrow`: `b.bits[i : i+w/8]`. -/
def bitmap.subrow (b : bitmap) (x y w : Nat) : List Nat :=
  let off := x + y * b.width
  let i := off / 8
  (b.bits.drop i).take (w / 8)

/-- Stored bit of a plane at pixel offset `off` (MSB-first within each
byte), used to state plane-level invariants.  This is a direct reading of
the packing layout that `bitmap.set`/`bitmap.clear` write. -/
def bitmap.bitOff (b : bitmap) (off : Nat) : Bool :=
  (b.bits.getD (off / 8) 0).testBit (7 - off % 8)

/-- Stored bit of a plane at pixel (x, y). -/
def bitmap.bitAt (b : bitmap) (x y : Nat) : Bool :=
  b.bitOff (x + y * b.width)

/-! ## Paper colors (waveshare.go) -/

/-- Go `type paperColor int` with its three constants. -/
inductive paperColor
  | colWhite
  | colBlack
  | colRed
  deriving DecidableEq, Repr

/-- Go `color.RGBA`: four 8-bit components. -/
structure rgba where
  r : Nat
  g : Nat
  b : Nat
  a : Nat
  deriving DecidableEq, Repr

/-- Go `paperColor.RGBA`. -/
def paperColor.RGBA : paperColor → rgba
  | .colBlack => ⟨0, 0, 0, 0xFF⟩
  | .colRed => ⟨0xFF, 0, 0, 0xFF⟩
  | .colWhite => ⟨0xFF, 0xFF, 0xFF, 0xFF⟩

/-- A color as seen through Go `color.Color.RGBA()`: 16-bit components
(alpha is ignored by all the modelled code). -/
structure rgb16 where
  r : Nat
  g : Nat
  b : Nat
  deriving DecidableEq, Repr

/-- Go `pickColor`: exact matches for white, black and red, everything else
defaults to white. -/
def pickColor (c : rgb16) : paperColor :=
  if c.r = 0xffff ∧ c.g = 0xffff ∧ c.b = 0xffff then .colWhite
  else if c.r = 0 ∧ c.g = 0 ∧ c.b = 0 then .colBlack
  else if c.r = 0xffff ∧ c.g = 0 ∧ c.b = 0 then .colRed
  else .colWhite

/-! ## The paper framebuffer (waveshare.go) -/

/-- Framebuffer part of Go `type paper struct` (GPIO pins are not modelled). -/
structure paper where
  width : Nat
  height : Nat
  bw : bitmap
  red : bitmap
  deriving DecidableEq, Repr

/-- Go `newPaper`: fixed 800x480 landscape panel. -/
def newPaper : paper :=
  { width := 800, height := 480, bw := mkBitmap 800 480, red := mkBitmap 800 480 }

/-- Go `paper.Clear`: bw plane all ones, red plane all zeros (all-White). -/
def paper.Clear (p : paper) : paper :=
  { p with bw := p.bw.setAll, red := p.red.clearAll }

/-- Go `paper.At`: prefers Red, then Black, then White. -/
def paper.At (p : paper) (x y : Nat) : rgba :=
  if p.red.get x y then paperColor.colRed.RGBA
  else if !(p.bw.get x y) then paperColor.colBlack.RGBA
  else paperColor.colWhite.RGBA

/-- Go `paper.Set`: quantize via `pickColor`, then write both planes. -/
def paper.Set (p : paper) (x y : Nat) (c : rgb16) : paper :=
  match pickColor c with
  | .colBlack => { p with bw := p.bw.clear x y, red := p.red.clear x y }
  | .colRed => { p with bw := p.bw.set x y, red := p.red.set x y }
  | .colWhite => { p with bw := p.bw.set x y, red := p.red.clear x y }

/-- The 16-bit color value of pure white, as `color.Color.RGBA()` yields it. -/
def white16 : rgb16 := ⟨0xffff, 0xffff, 0xffff⟩

/-- The 16-bit color value of pure black. -/
def black16 : rgb16 := ⟨0, 0, 0⟩

/-- The 16-bit color value of pure red. -/
def red16 : rgb16 := ⟨0xffff, 0, 0⟩

/-- The or-instead-of-and slip in `bitmap.get` makes it constantly true:
the mask `j` is a nonzero byte, so `bits[i] | j` is never zero. -/
lemma bitmap.get_const_true (b : bitmap) (x y : Nat) : b.get x y = true := by
  have h : ((b.bits.getD ((x + y * b.width) / 8) 0) |||
      (1 <<< (7 - ((x + y * b.width) &&& 0x07)))).testBit
        (7 - ((x + y * b.width) &&& 0x07)) = true := by
    rw [Nat.testBit_lor, Nat.shiftLeft_eq, one_mul, Nat.testBit_two_pow_self]
    simp
  simp only [bitmap.get, bne_iff_ne, ne_eq]
  intro h0
  rw [h0] at h
  simp [Nat.zero_testBit] at h

/-! ## Claim theorems: framebuffer reads -/

/-- C1: the claimed Set/At round-trip fails on the code.  On a freshly
cleared 800x480 paper, `Set (0,0) White` followed by `At (0,0)` yields the
RGBA rendering of Red, not of White: `bitmap.get` is constantly true, so
`At` always takes its Red branch. -/
theorem C1_set_at_failing_input :
    ((newPaper.Clear).Set 0 0 white16).At 0 0 = paperColor.colRed.RGBA ∧
    paperColor.colRed.RGBA ≠ paperColor.colWhite.RGBA := by
  refine ⟨?_, by decide⟩
  have h := bitmap.get_const_true (((newPaper.Clear).Set 0 0 white16)).red 0 0
  simp [paper.At, h]

/-- C2: the claimed clearAll/get property fails on the code.  With W=8, H=1,
`newBitmap` succeeds, yet after `clearAll()`, `get(0,0)` still returns true
(the claim says false): `get` computes `(bits[i] | mask) != 0`, which never
fails.  The plane-size and setAll parts of the claim do hold. -/
theorem C2_clearAll_get_failing_input :
    (newBitmap 8 1).map (fun b => b.clearAll.get 0 0) = some true ∧
    (newBitmap 8 1).map (fun b => b.bits.length) = some (8 * 1 / 8) ∧
    (newBitmap 8 1).map (fun b => b.setAll.get 0 0) = some true := by
  refine ⟨?_, by decide, ?_⟩ <;> decide

/-- C9: `pickColor` maps exact pure black to `colBlack`, exact pure red to
`colRed`, and every other 16-bit color - including every color that is not
exactly pure white, black or red - to `colWhite`; there is no
nearest-distance matching. -/
theorem C9_pickColor_exact_matching (c : rgb16) :
    (pickColor c = paperColor.colBlack ↔ c = black16) ∧
    (pickColor c = paperColor.colRed ↔ c = red16) ∧
    (¬(c = white16 ∨ c = black16 ∨ c = red16) → pickColor c = paperColor.colWhite) := by
  obtain ⟨r, g, b⟩ := c
  simp only [pickColor, white16, black16, red16, rgb16.mk.injEq]
  by_cases hw : r = 0xffff ∧ g = 0xffff ∧ b = 0xffff
  · rw [if_pos hw]
    exact ⟨⟨fun h => absurd h (by decide), fun h => absurd h.1 (by omega)⟩,
           ⟨fun h => absurd h (by decide), fun h => absurd h.2.1 (by omega)⟩,
           fun _ => rfl⟩
  · rw [if_neg hw]
    by_cases hb : r = 0 ∧ g = 0 ∧ b = 0
    · rw [if_pos hb]
      exact ⟨⟨fun _ => hb, fun _ => rfl⟩,
             ⟨fun h => absurd h (by decide), fun h => absurd h.1 (by omega)⟩,
             fun h => absurd (Or.inr (Or.inl hb)) h⟩
    · rw [if_neg hb]
      by_cases hr : r = 0xffff ∧ g = 0 ∧ b = 0
      · rw [if_pos hr]
        exact ⟨⟨fun h => absurd h (by decide), fun h => absurd h hb⟩,
               ⟨fun _ => hr, fun _ => rfl⟩,
               fun h => absurd (Or.inr (Or.inr hr)) h⟩
      · rw [if_neg hr]
        exact ⟨⟨fun h => absurd h (by decide), fun h => absurd h hb⟩,
               ⟨fun h => absurd h (by decide), fun h => absurd h hr⟩,
               fun _ => rfl⟩

/-- C9 witness: a dark gray quantizes to white. -/
theorem C9_witness : pickColor ⟨1, 2, 3⟩ = paperColor.colWhite :=
  (C9_pickColor_exact_matching ⟨1, 2, 3⟩).2.2 (by decide)

/-! ## Plane-bit lemmas for the two-plane encoding invariant -/

lemma and7_eq_mod8 (n : Nat) : n &&& 0x07 = n % 8 := by
  have h := Nat.and_pow_two_sub_one_eq_mod n 3
  norm_num at h
  exact h

lemma one_shl_eq_pow (s : Nat) : 1 <<< s = 2 ^ s := by
  rw [Nat.shiftLeft_eq, one_mul]

lemma getD_set_ne {α : Type} {i j : Nat} (h : i ≠ j) (l : List α) (v d : α) :
    (l.set i v).getD j d = l.getD j d := by
  simp [List.getElem?_set_ne h]

lemma getD_set_self {α : Type} {i : Nat} (l : List α) (h : i < l.length) (v d : α) :
    (l.set i v).getD i d = v := by
  simp [List.getElem?_set_self h]

/-- Writing pixel (x,y) with `set` leaves every other pixel offset alone. -/
lemma bitmap.bitOff_set_of_ne (b : bitmap) (x y : Nat) {off : Nat}
    (h : off ≠ x + y * b.width) : (b.set x y).bitOff off = b.bitOff off := by
  simp only [bitmap.set, bitmap.bitOff, and7_eq_mod8, one_shl_eq_pow]
  by_cases hlen : (x + y * b.width) / 8 < b.bits.length
  · by_cases hi : (x + y * b.width) / 8 = off / 8
    · rw [hi] at hlen ⊢
      rw [getD_set_self _ hlen]
      rw [Nat.testBit_lor, Nat.testBit_two_pow_of_ne (by omega), Bool.or_false]
    · rw [getD_set_ne hi]
  · rw [List.set_eq_of_length_le (Nat.le_of_not_lt hlen)]

/-- Writing pixel (x,y) with `clear` leaves every other pixel offset alone. -/
lemma bitmap.bitOff_clear_of_ne (b : bitmap) (x y : Nat) {off : Nat}
    (h : off ≠ x + y * b.width) : (b.clear x y).bitOff off = b.bitOff off := by
  simp only [bitmap.clear, bitmap.bitOff, and7_eq_mod8, one_shl_eq_pow]
  by_cases hlen : (x + y * b.width) / 8 < b.bits.length
  · by_cases hi : (x + y * b.width) / 8 = off / 8
    · rw [hi] at hlen ⊢
      rw [getD_set_self _ hlen]
      rw [Nat.testBit_land, Nat.testBit_xor,
        Nat.testBit_two_pow_of_ne (show 7 - (x + y * b.width) % 8 ≠ 7 - off % 8 by omega)]
      have h255 : (0xFF : Nat).testBit (7 - off % 8) = true := by
        have : (0xFF : Nat) = 2 ^ 8 - 1 := by norm_num
        rw [this, Nat.testBit_two_pow_sub_one]
        simp
        omega
      rw [h255]
      simp
    · rw [getD_set_ne hi]
  · rw [List.set_eq_of_length_le (Nat.le_of_not_lt hlen)]

/-- In-range `set` turns the addressed bit on. -/
lemma bitmap.bitOff_set_self (b : bitmap) (x y : Nat)
    (hlen : (x + y * b.width) / 8 < b.bits.length) :
    (b.set x y).bitOff (x + y * b.width) = true := by
  simp only [bitmap.set, bitmap.bitOff, and7_eq_mod8, one_shl_eq_pow]
  rw [getD_set_self _ hlen, Nat.testBit_lor, Nat.testBit_two_pow_self]
  simp

/-- In-range `clear` turns the addressed bit off. -/
lemma bitmap.bitOff_clear_self (b : bitmap) (x y : Nat)
    (hlen : (x + y * b.width) / 8 < b.bits.length) :
    (b.clear x y).bitOff (x + y * b.width) = false := by
  simp only [bitmap.clear, bitmap.bitOff, and7_eq_mod8, one_shl_eq_pow]
  have h255 : (0xFF : Nat).testBit (7 - (x + y * b.width) % 8) = true := by
    have h8 : (0xFF : Nat) = 2 ^ 8 - 1 := by norm_num
    rw [h8, Nat.testBit_two_pow_sub_one]
    simp
    omega
  rw [getD_set_self _ hlen, Nat.testBit_land, Nat.testBit_xor, Nat.testBit_two_pow_self, h255]
  simp

/-- Out-of-range `set` is a no-op on the byte list. -/
lemma bitmap.bitOff_set_oob (b : bitmap) (x y : Nat)
    (hlen : b.bits.length ≤ (x + y * b.width) / 8) (off : Nat) :
    (b.set x y).bitOff off = b.bitOff off := by
  simp only [bitmap.set, bitmap.bitOff]
  rw [List.set_eq_of_length_le hlen]

/-- Out-of-range `clear` is a no-op on the byte list. -/
lemma bitmap.bitOff_clear_oob (b : bitmap) (x y : Nat)
    (hlen : b.bits.length ≤ (x + y * b.width) / 8) (off : Nat) :
    (b.clear x y).bitOff off = b.bitOff off := by
  simp only [bitmap.clear, bitmap.bitOff]
  rw [List.set_eq_of_length_le hlen]

/-- `set` never turns a stored bit off. -/
lemma bitmap.bitOff_set_monotone (b : bitmap) (x y : Nat) {off : Nat}
    (h : b.bitOff off = true) : (b.set x y).bitOff off = true := by
  by_cases he : off = x + y * b.width
  · by_cases hlen : (x + y * b.width) / 8 < b.bits.length
    · rw [he]
      exact b.bitOff_set_self x y hlen
    · rw [b.bitOff_set_oob x y (Nat.le_of_not_lt hlen)]
      exact h
  · rw [b.bitOff_set_of_ne x y he]
    exact h

/-- `clear` never turns a stored bit on. -/
lemma bitmap.bitOff_clear_monotone (b : bitmap) (x y : Nat) {off : Nat}
    (h : (b.clear x y).bitOff off = true) : b.bitOff off = true := by
  by_cases he : off = x + y * b.width
  · by_cases hlen : (x + y * b.width) / 8 < b.bits.length
    · rw [he] at h
      rw [b.bitOff_clear_self x y hlen] at h
      cases h
    · rw [b.bitOff_clear_oob x y (Nat.le_of_not_lt hlen)] at h
      exact h
  · rw [b.bitOff_clear_of_ne x y he] at h
    exact h

lemma bitmap.set_width (b : bitmap) (x y : Nat) : (b.set x y).width = b.width := rfl

lemma bitmap.clear_width (b : bitmap) (x y : Nat) : (b.clear x y).width = b.width := rfl

lemma bitmap.set_length (b : bitmap) (x y : Nat) :
    (b.set x y).bits.length = b.bits.length := by
  simp [bitmap.set]

lemma bitmap.clear_length (b : bitmap) (x y : Nat) :
    (b.clear x y).bits.length = b.bits.length := by
  simp [bitmap.clear]

/-- Every stored bit of a plane is off after `clearAll`. -/
lemma bitmap.bitOff_clearAll (b : bitmap) (off : Nat) :
    (b.clearAll).bitOff off = false := by
  simp only [bitmap.clearAll, bitmap.bitOff]
  have h0 : ((b.bits.map fun _ => 0).getD (off / 8) 0) = 0 := by
    simp only [List.getD_eq_getElem?_getD, List.getElem?_map]
    rcases b.bits[off / 8]? with _ | v <;> rfl
  rw [h0]
  exact Nat.zero_testBit _

/-- Well-formedness plus the two-plane encoding invariant: the planes have
matching geometry and any pixel with its red bit on also has its bw bit on,
so the unused (bw=0, red=1) encoding never occurs. -/
def paper.planesAgree (p : paper) : Prop :=
  p.bw.width = p.red.width ∧ p.bw.bits.length = p.red.bits.length ∧
  ∀ off : Nat, p.red.bitOff off = true → p.bw.bitOff off = true

/-- Clearing to all-White establishes the encoding invariant. -/
lemma paper.Clear_planesAgree (p : paper) (hw : p.bw.width = p.red.width)
    (hl : p.bw.bits.length = p.red.bits.length) : (p.Clear).planesAgree := by
  refine ⟨hw, by simpa [paper.Clear, bitmap.setAll, bitmap.clearAll] using hl, ?_⟩
  intro off hred
  rw [show (p.Clear).red = p.red.clearAll from rfl, bitmap.bitOff_clearAll] at hred
  cases hred

/-- Every `paper.Set`, with any color, preserves the encoding invariant. -/
lemma paper.Set_planesAgree (p : paper) (x y : Nat) (c : rgb16)
    (h : p.planesAgree) : (p.Set x y c).planesAgree := by
  obtain ⟨hw, hl, hinv⟩ := h
  cases hpick : pickColor c <;>
    simp only [paper.Set, hpick] <;>
    refine ⟨hw, by simp [bitmap.set_length, bitmap.clear_length, hl], ?_⟩ <;>
    intro off hred
  · -- colWhite: bw.set, red.clear
    exact p.bw.bitOff_set_monotone x y (hinv off (p.red.bitOff_clear_monotone x y hred))
  · -- colBlack: bw.clear, red.clear
    by_cases he : off = x + y * p.bw.width
    · rw [hw] at he
      by_cases hlen : (x + y * p.red.width) / 8 < p.red.bits.length
      · rw [he, p.red.bitOff_clear_self x y hlen] at hred
        cases hred
      · have hred0 : p.red.bitOff off = true := by
          rwa [p.red.bitOff_clear_oob x y (Nat.le_of_not_lt hlen)] at hred
        have hbw := hinv off hred0
        have hlenbw : p.bw.bits.length ≤ (x + y * p.bw.width) / 8 := by
          rw [hw, hl]
          exact Nat.le_of_not_lt hlen
        rw [p.bw.bitOff_clear_oob x y hlenbw]
        exact hbw
    · have hne : off ≠ x + y * p.red.width := by rwa [hw] at he
      rw [p.red.bitOff_clear_of_ne x y hne] at hred
      rw [p.bw.bitOff_clear_of_ne x y he]
      exact hinv off hred
  · -- colRed: bw.set, red.set
    by_cases he : off = x + y * p.bw.width
    · by_cases hlen : (x + y * p.bw.width) / 8 < p.bw.bits.length
      · rw [he]
        exact p.bw.bitOff_set_self x y hlen
      · have hlenred : p.red.bits.length ≤ (x + y * p.red.width) / 8 := by
          rw [← hw, ← hl]
          exact Nat.le_of_not_lt hlen
        have hred0 : p.red.bitOff off = true := by
          rwa [p.red.bitOff_set_oob x y hlenred] at hred
        exact p.bw.bitOff_set_monotone x y (hinv off hred0)
    · have hne : off ≠ x + y * p.red.width := by rwa [hw] at he
      rw [p.red.bitOff_set_of_ne x y hne] at hred
      exact p.bw.bitOff_set_monotone x y (hinv off hred)

/-- A sequence of `paper.Set` calls, applied in order. -/
def paper.applySets (p : paper) (ops : List (Nat × Nat × rgb16)) : paper :=
  ops.foldl (fun q op => q.Set op.1 op.2.1 op.2.2) p

lemma paper.applySets_planesAgree (ops : List (Nat × Nat × rgb16)) (p : paper)
    (h : p.planesAgree) : (p.applySets ops).planesAgree := by
  induction ops generalizing p with
  | nil => exact h
  | cons op rest ih =>
      simp only [paper.applySets, List.foldl_cons]
      exact ih (p.Set op.1 op.2.1 op.2.2) (p.Set_planesAgree op.1 op.2.1 op.2.2 h)

/-- C10: starting from a framebuffer cleared by `paper.Clear` (bw plane all
ones, red plane all zeros), after any sequence of `paper.Set` calls with any
colors, every pixel whose red-plane bit is 1 also has its bw-plane bit 1:
the unused encoding (bw=0, red=1) is never produced. -/
theorem C10_no_unused_encoding (ops : List (Nat × Nat × rgb16)) (x y : Nat)
    (hred : ((newPaper.Clear).applySets ops).red.bitAt x y = true) :
    ((newPaper.Clear).applySets ops).bw.bitAt x y = true := by
  have hagree := paper.applySets_planesAgree ops (newPaper.Clear)
    (paper.Clear_planesAgree newPaper rfl rfl)
  obtain ⟨hw, _, hinv⟩ := hagree
  rw [bitmap.bitAt, hw]
  exact hinv _ hred

/-- C10 witness: after setting (0,0) to pure red, the bw bit at (0,0) is on. -/
theorem C10_witness :
    ((newPaper.Clear).applySets [(0, 0, red16)]).bw.bitAt 0 0 = true :=
  C10_no_unused_encoding [(0, 0, red16)] 0 0 (by decide)

/-! ## Panel protocol traces (waveshare.go)

Byte traffic on the SPI channel is modelled as a list of events; a
`command` event is a byte sent with the data/command line in command mode,
a `data` event one sent in data mode.  GPIO-only steps (reset pulses,
sleeps) and the chip-select framing carry no bytes and are not modelled. -/

/-- One byte on the wire, tagged with the data/command line state. -/
inductive spiEvent
  | command (b : Nat)
  | data (b : Nat)
  deriving DecidableEq, Repr

/-- Go `paper.Command(x, params...)`: the command byte followed by each
parameter sent via `Data`. -/
def commandTrace (x : Nat) (params : List Nat) : List spiEvent :=
  spiEvent.command x :: params.map spiEvent.data

/-- Go `paper.Data(x...)`: each byte in data mode. -/
def dataTrace (xs : List Nat) : List spiEvent :=
  xs.map spiEvent.data

/-- Go `paper.WaitForNotBusy`: each loop iteration issues Get-Status (0x71)
then reads the busy line; `n` is the number of not-ready reads before the
ready one, so the loop runs n+1 times. -/
def waitForNotBusyTrace : Nat → List spiEvent
  | 0 => [spiEvent.command 0x71]
  | n + 1 => spiEvent.command 0x71 :: waitForNotBusyTrace n

lemma waitForNotBusyTrace_eq_replicate (n : Nat) :
    waitForNotBusyTrace n = List.replicate (n + 1) (spiEvent.command 0x71) := by
  induction n with
  | zero => rfl
  | succ m ih => simp [waitForNotBusyTrace, ih, List.replicate_succ]

/-- Go `paper.Init` (after the GPIO reset pulse): Power Setting 0x01 with
four parameter bytes, Power ON 0x04, busy-wait, Panel Setting 0x00 with one
parameter byte, Resolution Setting 0x61 with four parameter bytes, then
`p.Clear()`.  Returns the emitted byte trace and the new framebuffer. -/
def paper.Init (p : paper) (busyReads : Nat) : List spiEvent × paper :=
  (commandTrace 0x01 [0x07, 0x07, 0x3f, 0x3f]
      ++ commandTrace 0x04 []
      ++ waitForNotBusyTrace busyReads
      ++ commandTrace 0x00 [0x0F]
      ++ commandTrace 0x61 [0x03, 0x20, 0x01, 0xE0],
    p.Clear)

/-- C4: `paper.Init` emits exactly the claimed command/parameter sequence -
0x01 with (0x07,0x07,0x3f,0x3f), 0x04, a 0x71 poll per busy-loop iteration,
0x00 with (0x0F), 0x61 with (0x03,0x20,0x01,0xE0) - and leaves the bw plane
all ones (bytes 0xFF) and the red plane all zeros, i.e. all-White. -/
theorem C4_init_sequence (p : paper) (n : Nat) :
    (p.Init n).1 =
      [spiEvent.command 0x01, spiEvent.data 0x07, spiEvent.data 0x07,
          spiEvent.data 0x3f, spiEvent.data 0x3f, spiEvent.command 0x04]
        ++ List.replicate (n + 1) (spiEvent.command 0x71)
        ++ [spiEvent.command 0x00, spiEvent.data 0x0F, spiEvent.command 0x61,
            spiEvent.data 0x03, spiEvent.data 0x20, spiEvent.data 0x01,
            spiEvent.data 0xE0] ∧
    (p.Init n).2.bw.bits = List.replicate p.bw.bits.length 0xFF ∧
    (p.Init n).2.red.bits = List.replicate p.red.bits.length 0 := by
  refine ⟨?_, ?_, ?_⟩
  · simp [paper.Init, commandTrace, waitForNotBusyTrace_eq_replicate]
  · simp [paper.Init, paper.Clear, bitmap.setAll, List.map_const']
  · simp [paper.Init, paper.Clear, bitmap.clearAll, List.map_const']

/-- Go `paper.DisplayPartialRefresh`.  The two alignment panics come before
any byte is emitted; a panic is modelled as the empty trace plus the panic
message, success as the full trace plus `none`.  Go `byte(v)` truncation is
`% 256`. -/
def paper.DisplayPartialRefresh (p : paper) (x y w h : Nat) (busyReads : Nat) :
    List spiEvent × Option String :=
  if x &&& 7 != 0 then ([], some "x is not a multiple of 8")
  else if w &&& 7 != 0 then ([], some "w is not a multiple of 8")
  else
    let hrst := x / 8
    let hred := (x + w - 1) / 8
    let vrst := y
    let vred := y + h - 1
    (commandTrace 0x91 []
        ++ commandTrace 0x90 [(hrst >>> 5) % 256, ((hrst &&& 0x1F) <<< 3) % 256,
            (hred >>> 5) % 256, ((hred &&& 0x1F) <<< 3) % 256,
            (vrst >>> 8) % 256, vrst % 256, (vred >>> 8) % 256, vred % 256, 0x01]
        ++ commandTrace 0x10 []
        ++ ((List.range h).map fun row => dataTrace (p.bw.subrow x (y + row) w)).flatten
        ++ commandTrace 0x13 []
        ++ ((List.range h).map fun row => dataTrace (p.red.subrow x (y + row) w)).flatten
        ++ commandTrace 0x12 []
        ++ waitForNotBusyTrace busyReads
        ++ commandTrace 0x92 [],
      none)

/-- C8: whenever x or w is not a multiple of 8, `DisplayPartialRefresh`
panics before transmitting anything: the emitted trace is empty and the
panic message is produced, so no misaligned window is ever sent. -/
theorem C8_partial_refresh_alignment (p : paper) (x y w h n : Nat)
    (hmis : x % 8 ≠ 0 ∨ w % 8 ≠ 0) :
    (p.DisplayPartialRefresh x y w h n).1 = [] ∧
    (p.DisplayPartialRefresh x y w h n).2.isSome = true := by
  have hx : x &&& 7 = x % 8 := and7_eq_mod8 x
  have hw : w &&& 7 = w % 8 := and7_eq_mod8 w
  by_cases hx8 : x % 8 = 0
  · have hw8 : w % 8 ≠ 0 := hmis.resolve_left (by simp [hx8])
    simp [paper.DisplayPartialRefresh, hx, hw, hx8, hw8]
  · simp [paper.DisplayPartialRefresh, hx, hx8]

/-- C8 witness: x=4 (misaligned) with w=8, on the real panel framebuffer. -/
theorem C8_witness :
    (newPaper.DisplayPartialRefresh 4 0 8 8 0).1 = [] ∧
    (newPaper.DisplayPartialRefresh 4 0 8 8 0).2.isSome = true :=
  C8_partial_refresh_alignment newPaper 4 0 8 8 0 (Or.inl (by decide))

/-! ## Error-diffusion dithering (main.go) -/

/-- Go `clipTo16`: saturate into [-65535, 65535]. -/
def clipTo16 (x : Int) : Int :=
  if x < -0xffff then -0xffff else if x > 0xffff then 0xffff else x

/-- Go `clipToU16`: clamp into [0, 65535]. -/
def clipToU16 (x : Int) : Nat :=
  if x < 0 then 0 else if x > 0xffff then 0xffff else x.toNat

/-- Go `colorError`: a 3-component signed accumulator (`[3]int32`); no
value reachable in the modelled code paths leaves int32 range, so Int is a
faithful carrier. -/
structure colorError where
  r : Int
  g : Int
  b : Int
  deriving DecidableEq, Repr

/-- The zero value of `colorError`, as produced by Go `make([]colorError, n)`. -/
def zeroError : colorError := ⟨0, 0, 0⟩

/-- Go `colorError.Add`: componentwise saturating accumulate. -/
def colorError.Add (ce x : colorError) : colorError :=
  ⟨clipTo16 (ce.r + x.r), clipTo16 (ce.g + x.g), clipTo16 (ce.b + x.b)⟩

/-- Truncation toward zero: the effect of Go `int32(f)` on a float64 value. -/
def truncInt (q : ℚ) : Int :=
  if 0 ≤ q then ⌊q⌋ else ⌈q⌉

/-- Go `colorError.Mul`: `int32(x * float64(ce[i]))` per component.  The
call sites pass x ∈ {7/16, 3/16, 5/16, 1/16}; for those dyadic factors and
the int32-range magnitudes involved the float64 product is exact, so exact
rational arithmetic followed by truncation toward zero models it. -/
def colorError.Mul (ce : colorError) (x : ℚ) : colorError :=
  ⟨truncInt (x * ce.r), truncInt (x * ce.g), truncInt (x * ce.b)⟩

/-- Go `colorError.Apply`: add the error to a color, clamping into uint16
(the result alpha 0xFFFF is not tracked; nothing modelled reads it). -/
def colorError.Apply (ce : colorError) (c : rgb16) : rgb16 :=
  ⟨clipToU16 ((c.r : Int) + ce.r), clipToU16 ((c.g : Int) + ce.g),
    clipToU16 ((c.b : Int) + ce.b)⟩

/-- Go `colorSub(a, b)`: returns b - a componentwise. -/
def colorSub (a b : rgb16) : colorError :=
  ⟨(b.r : Int) - (a.r : Int), (b.g : Int) - (a.g : Int), (b.b : Int) - (a.b : Int)⟩

/-- The paper's color model conversion (waveshare.go `paper.ColorModel`)
on 16-bit components: quantize through `pickColor`. -/
def paperConvert (c : rgb16) : rgb16 :=
  match pickColor c with
  | .colBlack => black16
  | .colRed => red16
  | .colWhite => white16

/-- The fixed inputs of the dithering loop of `drawPhoto`: destination size
Wd x Hd, the source sampler (`src.At` at the scaled offset), the
destination color model conversion (`dst.ColorModel().Convert`) and the
destination pixel sink (`dst.Set`); σ is the destination image state. -/
structure ditherCtx (σ : Type) where
  W : Nat
  H : Nat
  sample : Nat → Nat → rgb16
  convert : rgb16 → rgb16
  setPix : σ → Nat → Nat → rgb16 → σ

/-- The loop state of `drawPhoto`: the destination image and the
`carriedErrors` slice (slot x + y*W for pixel (x, y)). -/
structure ditherState (σ : Type) where
  dst : σ
  carried : List colorError

variable {σ : Type}

/-- Go `carriedError(x, y)`: the accumulator slot x + y*W. -/
def carriedAt (c : ditherCtx σ) (s : ditherState σ) (x y : Nat) : colorError :=
  s.carried.getD (x + y * c.W) zeroError

/-- Go `carriedError(x, y).Add(v)`: in-place saturating accumulate into one slot. -/
def addCarried (c : ditherCtx σ) (l : List colorError) (x y : Nat) (v : colorError) :
    List colorError :=
  l.set (x + y * c.W) ((l.getD (x + y * c.W) zeroError).Add v)

/-- One iteration of the inner loop of `drawPhoto` at destination pixel
(x, y): sample, apply the carried error, quantize via the destination color
model, write the pixel, then diffuse the residual forward with weights
7/16, 3/16, 5/16, 1/16, dropping targets outside the destination bounds. -/
def ditherStep (c : ditherCtx σ) (s : ditherState σ) (x y : Nat) : ditherState σ :=
  let srcCol := (carriedAt c s x y).Apply (c.sample x y)
  let dstCol := c.convert srcCol
  let dst1 := c.setPix s.dst x y dstCol
  let ce := colorSub dstCol srcCol
  let l1 := if x + 1 < c.W then addCarried c s.carried (x + 1) y (ce.Mul (7/16))
    else s.carried
  let l2 := if 1 ≤ x ∧ y + 1 < c.H then addCarried c l1 (x - 1) (y + 1) (ce.Mul (3/16))
    else l1
  let l3 := if y + 1 < c.H then addCarried c l2 x (y + 1) (ce.Mul (5/16))
    else l2
  let l4 := if x + 1 < c.W ∧ y + 1 < c.H then addCarried c l3 (x + 1) (y + 1) (ce.Mul (1/16))
    else l3
  { dst := dst1, carried := l4 }

/-- The x-inner loop of `drawPhoto` over one row y. -/
def ditherRow (c : ditherCtx σ) (s : ditherState σ) (y : Nat) : ditherState σ :=
  (List.range c.W).foldl (fun t x => ditherStep c t x y) s

/-- The full dithering pass of `drawPhoto`: `carriedErrors` starts as
`make([]colorError, W*H)` (all zero); rows are scanned top to bottom,
pixels left to right. -/
def ditherPass (c : ditherCtx σ) (dst0 : σ) : ditherState σ :=
  (List.range c.H).foldl (fun s y => ditherRow c s y)
    { dst := dst0, carried := List.replicate (c.W * c.H) zeroError }

/-! ## Claim C3: accumulator range invariant -/

/-- Every component of a ColorError accumulator lies in [-65535, 65535]. -/
def errInRange (e : colorError) : Prop :=
  -0xffff ≤ e.r ∧ e.r ≤ 0xffff ∧ -0xffff ≤ e.g ∧ e.g ≤ 0xffff ∧
    -0xffff ≤ e.b ∧ e.b ≤ 0xffff

instance (e : colorError) : Decidable (errInRange e) := by
  unfold errInRange
  infer_instance

lemma clipTo16_range (x : Int) : -0xffff ≤ clipTo16 x ∧ clipTo16 x ≤ 0xffff := by
  unfold clipTo16
  split
  · omega
  · split <;> omega

lemma errInRange_Add (ce x : colorError) : errInRange (ce.Add x) :=
  ⟨(clipTo16_range (ce.r + x.r)).1, (clipTo16_range (ce.r + x.r)).2,
   (clipTo16_range (ce.g + x.g)).1, (clipTo16_range (ce.g + x.g)).2,
   (clipTo16_range (ce.b + x.b)).1, (clipTo16_range (ce.b + x.b)).2⟩

lemma ite_addCarried_inRange (c : ditherCtx σ) (P : Prop) [Decidable P]
    {l : List colorError} (u v : Nat) (val : colorError)
    (h : ∀ e ∈ l, errInRange e) :
    ∀ e ∈ (if P then addCarried c l u v val else l), errInRange e := by
  split
  · intro e he
    rcases List.mem_or_eq_of_mem_set he with h1 | h2
    · exact h e h1
    · rw [h2]
      exact errInRange_Add _ _
  · exact h

lemma ditherStep_inRange (c : ditherCtx σ) (s : ditherState σ) (x y : Nat)
    (h : ∀ e ∈ s.carried, errInRange e) :
    ∀ e ∈ (ditherStep c s x y).carried, errInRange e := by
  simp only [ditherStep]
  exact ite_addCarried_inRange c _ _ _ _
    (ite_addCarried_inRange c _ _ _ _
      (ite_addCarried_inRange c _ _ _ _
        (ite_addCarried_inRange c _ _ _ _ h)))

lemma foldl_carried_inRange {β : Type} (f : ditherState σ → β → ditherState σ)
    (hf : ∀ s b, (∀ e ∈ s.carried, errInRange e) → ∀ e ∈ (f s b).carried, errInRange e)
    (l : List β) (s : ditherState σ) (h : ∀ e ∈ s.carried, errInRange e) :
    ∀ e ∈ (l.foldl f s).carried, errInRange e := by
  induction l generalizing s with
  | nil => exact h
  | cons b rest ih => exact ih (f s b) (hf s b h)

lemma ditherRow_inRange (c : ditherCtx σ) (s : ditherState σ) (y : Nat)
    (h : ∀ e ∈ s.carried, errInRange e) :
    ∀ e ∈ (ditherRow c s y).carried, errInRange e :=
  foldl_carried_inRange _ (fun t x ht => ditherStep_inRange c t x y ht) _ s h

/-- C3: throughout a dithering pass every component of every colorError
accumulator stays within [-65535, 65535] after every update: `Add`
saturates via `clipTo16`, every store into an accumulator goes through
`Add` (so no `Mul` or `colorSub` result escapes the range into a slot), and
the whole pass - for any sampler, including adversarial saturated input -
keeps every slot in range. -/
theorem C3_error_accumulator_bounds (σ : Type) (c : ditherCtx σ) (dst0 : σ) :
    (∀ ce x : colorError, errInRange (ce.Add x)) ∧
    (∀ (s : ditherState σ) (x y : Nat), (∀ e ∈ s.carried, errInRange e) →
      ∀ e ∈ (ditherStep c s x y).carried, errInRange e) ∧
    (∀ e ∈ (ditherPass c dst0).carried, errInRange e) := by
  refine ⟨errInRange_Add, fun s x y h => ditherStep_inRange c s x y h, ?_⟩
  unfold ditherPass
  apply foldl_carried_inRange _ (fun s y hs => ditherRow_inRange c s y hs)
  intro e he
  rw [List.eq_of_mem_replicate he]
  decide

/-- Concrete context used by witnesses: a 2x2 destination whose sampler
returns pure saturated red everywhere (the adversarial input named by the
claim) and which quantizes through the paper color model. -/
def unitCtx : ditherCtx Unit :=
  { W := 2, H := 2, sample := fun _ _ => red16, convert := paperConvert,
    setPix := fun u _ _ _ => u }

/-- C3 witness: a saturating add of two maximal errors stays in range, and
the slot (0,0) after a full adversarial 2x2 pass is in range. -/
theorem C3_witness :
    errInRange (colorError.Add ⟨65535, 0, 0⟩ ⟨65535, 0, 0⟩) ∧
    errInRange ((ditherPass unitCtx ()).carried.getD 0 zeroError) :=
  ⟨(C3_error_accumulator_bounds Unit unitCtx ()).1 ⟨65535, 0, 0⟩ ⟨65535, 0, 0⟩,
   (C3_error_accumulator_bounds Unit unitCtx ()).2.2 _ (by decide)⟩

/-! ## Claim C5: Floyd-Steinberg weights and targets -/

lemma idx_lt {W H u v : Nat} (hu : u < W) (hv : v < H) : u + v * W < W * H :=
  calc u + v * W < W + v * W := by omega
  _ = (v + 1) * W := by ring
  _ ≤ H * W := Nat.mul_le_mul_right W hv
  _ = W * H := Nat.mul_comm H W

lemma idx_inj {W u u' : Nat} (hu : u < W) (hu' : u' < W) (v v' : Nat) :
    u + v * W = u' + v' * W ↔ u = u' ∧ v = v' := by
  constructor
  · intro h
    have h1 : (u + v * W) % W = (u' + v' * W) % W := by rw [h]
    have h2 : (u + v * W) / W = (u' + v' * W) / W := by rw [h]
    rw [Nat.add_mul_mod_self_right, Nat.add_mul_mod_self_right,
      Nat.mod_eq_of_lt hu, Nat.mod_eq_of_lt hu'] at h1
    rw [Nat.add_mul_div_right _ _ (by omega), Nat.add_mul_div_right _ _ (by omega),
      Nat.div_eq_of_lt hu, Nat.div_eq_of_lt hu'] at h2
    omega
  · rintro ⟨rfl, rfl⟩
    rfl

lemma getD_ite_addCarried_ne (c : ditherCtx σ) (P : Prop) [Decidable P]
    (l : List colorError) {u v u' v' : Nat}
    (hne : P → u + v * c.W ≠ u' + v' * c.W) (val : colorError) :
    (if P then addCarried c l u v val else l).getD (u' + v' * c.W) zeroError =
      l.getD (u' + v' * c.W) zeroError := by
  split
  next hp => exact getD_set_ne (hne hp) _ _ _
  next => rfl

lemma length_ite_addCarried (c : ditherCtx σ) (P : Prop) [Decidable P]
    (l : List colorError) (u v : Nat) (val : colorError) :
    (if P then addCarried c l u v val else l).length = l.length := by
  split
  · simp [addCarried]
  · rfl

/-- The corrected color at pixel (x, y): the sample with the carried error
applied (the `srcCol` local of the loop body). -/
def correctedAt (c : ditherCtx σ) (s : ditherState σ) (x y : Nat) : rgb16 :=
  (carriedAt c s x y).Apply (c.sample x y)

/-- The residual diffused from pixel (x, y): `colorSub(dstCol, srcCol)`,
quantized subtracted from corrected. -/
def residualAt (c : ditherCtx σ) (s : ditherState σ) (x y : Nat) : colorError :=
  colorSub (c.convert (correctedAt c s x y)) (correctedAt c s x y)

/-- One guarded diffusion: accumulate into slot (u, v) if the bounds check
passes, otherwise drop the contribution. -/
def stage (c : ditherCtx σ) (P : Prop) [Decidable P] (u v : Nat) (val : colorError)
    (l : List colorError) : List colorError :=
  if P then addCarried c l u v val else l

/-- The carried-error list after one loop iteration is the four guarded
diffusions, applied in source order, over the previous list. -/
lemma ditherStep_carried (c : ditherCtx σ) (s : ditherState σ) (x y : Nat) :
    (ditherStep c s x y).carried =
      stage c (x + 1 < c.W ∧ y + 1 < c.H) (x + 1) (y + 1) ((residualAt c s x y).Mul (1/16))
        (stage c (y + 1 < c.H) x (y + 1) ((residualAt c s x y).Mul (5/16))
          (stage c (1 ≤ x ∧ y + 1 < c.H) (x - 1) (y + 1) ((residualAt c s x y).Mul (3/16))
            (stage c (x + 1 < c.W) (x + 1) y ((residualAt c s x y).Mul (7/16))
              s.carried))) := rfl

lemma idx_ne {W u u' : Nat} (hu : u < W) (hu' : u' < W) {v v' : Nat}
    (h : ¬(u = u' ∧ v = v')) : u + v * W ≠ u' + v' * W := by
  intro he
  exact h ((idx_inj hu hu' v v').mp he)

lemma getD_stage_ne (c : ditherCtx σ) (P : Prop) [Decidable P] (u v : Nat)
    (val : colorError) (l : List colorError) {u' v' : Nat}
    (hne : P → u + v * c.W ≠ u' + v' * c.W) :
    (stage c P u v val l).getD (u' + v' * c.W) zeroError =
      l.getD (u' + v' * c.W) zeroError := by
  unfold stage
  split
  next hp => exact getD_set_ne (hne hp) _ _ _
  next => rfl

lemma stage_length (c : ditherCtx σ) (P : Prop) [Decidable P] (u v : Nat)
    (val : colorError) (l : List colorError) :
    (stage c P u v val l).length = l.length := by
  unfold stage
  split
  · simp [addCarried]
  · rfl

lemma getD_stage_self (c : ditherCtx σ) (P : Prop) [Decidable P] {u v : Nat}
    (val : colorError) (l : List colorError) (hp : P)
    (hidx : u + v * c.W < l.length) :
    (stage c P u v val l).getD (u + v * c.W) zeroError =
      (l.getD (u + v * c.W) zeroError).Add val := by
  unfold stage
  rw [if_pos hp]
  exact getD_set_self _ hidx _ _

/-- C5: at every destination pixel (x, y) visited by the loop, the residual
is corrected minus quantized, and it is diffused forward with weight 7/16
to (x+1, y), 3/16 to (x-1, y+1), 5/16 to (x, y+1) and 1/16 to (x+1, y+1);
a contribution whose target is out of bounds is dropped, and no other slot
is touched (no renormalization, no wrapping). -/
theorem C5_floyd_steinberg_diffusion (σ : Type) (c : ditherCtx σ) (s : ditherState σ)
    (x y : Nat) (hx : x < c.W) (hy : y < c.H)
    (hlen : s.carried.length = c.W * c.H) :
    (residualAt c s x y =
      ⟨((correctedAt c s x y).r : Int) - ((c.convert (correctedAt c s x y)).r : Int),
       ((correctedAt c s x y).g : Int) - ((c.convert (correctedAt c s x y)).g : Int),
       ((correctedAt c s x y).b : Int) - ((c.convert (correctedAt c s x y)).b : Int)⟩) ∧
    (x + 1 < c.W →
      carriedAt c (ditherStep c s x y) (x + 1) y =
        (carriedAt c s (x + 1) y).Add ((residualAt c s x y).Mul (7/16))) ∧
    (1 ≤ x → y + 1 < c.H →
      carriedAt c (ditherStep c s x y) (x - 1) (y + 1) =
        (carriedAt c s (x - 1) (y + 1)).Add ((residualAt c s x y).Mul (3/16))) ∧
    (y + 1 < c.H →
      carriedAt c (ditherStep c s x y) x (y + 1) =
        (carriedAt c s x (y + 1)).Add ((residualAt c s x y).Mul (5/16))) ∧
    (x + 1 < c.W → y + 1 < c.H →
      carriedAt c (ditherStep c s x y) (x + 1) (y + 1) =
        (carriedAt c s (x + 1) (y + 1)).Add ((residualAt c s x y).Mul (1/16))) ∧
    (∀ u v : Nat, u < c.W →
      ¬(u = x + 1 ∧ v = y) → ¬(u + 1 = x ∧ v = y + 1) →
      ¬(u = x ∧ v = y + 1) → ¬(u = x + 1 ∧ v = y + 1) →
      carriedAt c (ditherStep c s x y) u v = carriedAt c s u v) := by
  refine ⟨rfl, ?_, ?_, ?_, ?_, ?_⟩
  · -- weight 7/16 to (x+1, y)
    intro hx1
    have hne4 : (x + 1 < c.W ∧ y + 1 < c.H) → x + 1 + (y + 1) * c.W ≠ x + 1 + y * c.W :=
      fun hp => idx_ne hp.1 hx1 (by omega)
    have hne3 : (y + 1 < c.H) → x + (y + 1) * c.W ≠ x + 1 + y * c.W :=
      fun _ => idx_ne hx hx1 (by omega)
    have hne2 : (1 ≤ x ∧ y + 1 < c.H) → x - 1 + (y + 1) * c.W ≠ x + 1 + y * c.W :=
      fun _ => idx_ne (by omega) hx1 (by omega)
    simp only [carriedAt, ditherStep_carried]
    rw [getD_stage_ne c _ _ _ _ _ hne4, getD_stage_ne c _ _ _ _ _ hne3,
      getD_stage_ne c _ _ _ _ _ hne2,
      getD_stage_self c _ _ _ hx1 (by rw [hlen]; exact idx_lt hx1 hy)]
  · -- weight 3/16 to (x-1, y+1)
    intro hx0 hy1
    have hne4 : (x + 1 < c.W ∧ y + 1 < c.H) → x + 1 + (y + 1) * c.W ≠ x - 1 + (y + 1) * c.W :=
      fun hp => idx_ne hp.1 (by omega) (by omega)
    have hne3 : (y + 1 < c.H) → x + (y + 1) * c.W ≠ x - 1 + (y + 1) * c.W :=
      fun _ => idx_ne hx (by omega) (by omega)
    have hne1 : (x + 1 < c.W) → x + 1 + y * c.W ≠ x - 1 + (y + 1) * c.W :=
      fun hp => idx_ne hp (by omega) (by omega)
    simp only [carriedAt, ditherStep_carried]
    rw [getD_stage_ne c _ _ _ _ _ hne4, getD_stage_ne c _ _ _ _ _ hne3,
      getD_stage_self c _ _ _ ⟨hx0, hy1⟩
        (by rw [stage_length, hlen]; exact idx_lt (by omega) hy1),
      getD_stage_ne c _ _ _ _ _ hne1]
  · -- weight 5/16 to (x, y+1)
    intro hy1
    have hne4 : (x + 1 < c.W ∧ y + 1 < c.H) → x + 1 + (y + 1) * c.W ≠ x + (y + 1) * c.W :=
      fun hp => idx_ne hp.1 hx (by omega)
    have hne2 : (1 ≤ x ∧ y + 1 < c.H) → x - 1 + (y + 1) * c.W ≠ x + (y + 1) * c.W :=
      fun hp => idx_ne (by omega) hx (by omega)
    have hne1 : (x + 1 < c.W) → x + 1 + y * c.W ≠ x + (y + 1) * c.W :=
      fun hp => idx_ne hp hx (by omega)
    simp only [carriedAt, ditherStep_carried]
    rw [getD_stage_ne c _ _ _ _ _ hne4,
      getD_stage_self c _ _ _ hy1
        (by rw [stage_length, stage_length, hlen]; exact idx_lt hx hy1),
      getD_stage_ne c _ _ _ _ _ hne2, getD_stage_ne c _ _ _ _ _ hne1]
  · -- weight 1/16 to (x+1, y+1)
    intro hx1 hy1
    have hne3 : (y + 1 < c.H) → x + (y + 1) * c.W ≠ x + 1 + (y + 1) * c.W :=
      fun _ => idx_ne hx hx1 (by omega)
    have hne2 : (1 ≤ x ∧ y + 1 < c.H) → x - 1 + (y + 1) * c.W ≠ x + 1 + (y + 1) * c.W :=
      fun _ => idx_ne (by omega) hx1 (by omega)
    have hne1 : (x + 1 < c.W) → x + 1 + y * c.W ≠ x + 1 + (y + 1) * c.W :=
      fun hp => idx_ne hp hx1 (by omega)
    simp only [carriedAt, ditherStep_carried]
    rw [getD_stage_self c _ _ _ ⟨hx1, hy1⟩
        (by rw [stage_length, stage_length, stage_length, hlen]; exact idx_lt hx1 hy1),
      getD_stage_ne c _ _ _ _ _ hne3, getD_stage_ne c _ _ _ _ _ hne2,
      getD_stage_ne c _ _ _ _ _ hne1]
  · -- every other slot is left untouched
    intro u v hu hta htb htc htd
    have hne4 : (x + 1 < c.W ∧ y + 1 < c.H) → x + 1 + (y + 1) * c.W ≠ u + v * c.W :=
      fun hp => idx_ne hp.1 hu (by omega)
    have hne3 : (y + 1 < c.H) → x + (y + 1) * c.W ≠ u + v * c.W :=
      fun _ => idx_ne hx hu (by omega)
    have hne2 : (1 ≤ x ∧ y + 1 < c.H) → x - 1 + (y + 1) * c.W ≠ u + v * c.W :=
      fun hp => idx_ne (by omega) hu (by omega)
    have hne1 : (x + 1 < c.W) → x + 1 + y * c.W ≠ u + v * c.W :=
      fun hp => idx_ne hp hu (by omega)
    simp only [carriedAt, ditherStep_carried]
    rw [getD_stage_ne c _ _ _ _ _ hne4, getD_stage_ne c _ _ _ _ _ hne3,
      getD_stage_ne c _ _ _ _ _ hne2, getD_stage_ne c _ _ _ _ _ hne1]

/-- C5 witness: a 2x2 adversarial-red context at pixel (0,0); the right
neighbor receives exactly 7/16 of the residual. -/
theorem C5_witness :
    carriedAt unitCtx (ditherStep unitCtx ⟨(), List.replicate 4 zeroError⟩ 0 0) 1 0 =
      (carriedAt unitCtx ⟨(), List.replicate 4 zeroError⟩ 1 0).Add
        ((residualAt unitCtx ⟨(), List.replicate 4 zeroError⟩ 0 0).Mul (7/16)) :=
  (C5_floyd_steinberg_diffusion Unit unitCtx ⟨(), List.replicate 4 zeroError⟩ 0 0
    (by decide) (by decide) (by decide)).2.1 (by decide)

/-! ## Text placement geometry (main.go `renderer.writeText`)

Coordinates are in 26.6 fixed point (`fixed.Int26_6`), with 1 pixel = 64
units; `fixed.I` multiplies by 64 and `Round()` is `(x + 0x20) >> 6`, an
arithmetic shift, i.e. floor division by 64.  The font collaborator is
abstracted: the measured advance width and ascent height are inputs, and
`DrawString` advances the dot by the advance (its documented contract). -/

/-- Go `fixed.I`. -/
def fixedI (i : Int) : Int := i * 64

/-- Go `fixed.Int26_6.Round`. -/
def fixedRound (x : Int) : Int := (x + 32).fdiv 64

/-- Go `originAnchor` with its four constants. -/
inductive originAnchor
  | topLeft
  | topRight
  | bottomLeft
  | bottomRight
  deriving DecidableEq, Repr

/-- Geometry of `renderer.writeText`: destination size in pixels, signed
origin in pixels, anchor, and the measured advance/ascent in fixed units.
Returns the resolved baseline dot (fixed units) and the returned opposite
corner (pixels, rounded as the source does). -/
def writeTextGeom (dstW dstH : Int) (originX originY : Int) (anchor : originAnchor)
    (advance ascent : Int) : (Int × Int) × (Int × Int) :=
  let drawWidth := advance
  let drawHeight := ascent
  let lowerRightX := fixedI (dstW - 1)
  let lowerRightY := fixedI (dstH - 1)
  let dotX0 := if 0 ≤ originX then fixedI originX else lowerRightX - fixedI (-originX)
  let dotY0 := if 0 ≤ originY then fixedI originY else lowerRightY - fixedI (-originY)
  let dotX1 := match anchor with
    | .topLeft => dotX0
    | .topRight => dotX0 - drawWidth
    | .bottomLeft => dotX0
    | .bottomRight => dotX0 - drawWidth
  let dotY1 := match anchor with
    | .topLeft => dotY0 + drawHeight
    | .topRight => dotY0 + drawHeight
    | .bottomLeft => dotY0
    | .bottomRight => dotY0
  let afterX := dotX1 + drawWidth
  let afterY := dotY1
  let oppX := match anchor with
    | .topLeft => afterX
    | .topRight => afterX - drawWidth
    | .bottomLeft => afterX
    | .bottomRight => afterX - drawWidth
  let oppY := match anchor with
    | .topLeft => afterY
    | .topRight => afterY
    | .bottomLeft => afterY - drawHeight
    | .bottomRight => afterY - drawHeight
  ((dotX1, dotY1), (fixedRound oppX, fixedRound oppY))

/-- C6 counterexample: with destination 800x480, origin (-2,2), anchor
topRight, advance 40px and ascent 20px, the baseline resolves to
(800-1-2-40, 2+20) = (757, 22), not to (800-1-40, 2+20) = (759, 22) as
claimed: the claim drops the 2-pixel offset from the right edge. -/
theorem C6_counterexample :
    (writeTextGeom 800 480 (-2) 2 .topRight (fixedI 40) (fixedI 20)).1 ≠
      (fixedI (800 - 1 - 40), fixedI (2 + 20)) := by
  decide

/-- C6 amended: the baseline resolves to (800-1-2-40, 2+20) = (757, 22);
the returned opposite corner is (757, 22); and feeding that corner back as
a bottomLeft-anchored origin for any second string resolves its baseline to
the same x = 757, so the stack has zero horizontal drift. -/
theorem C6_amended_text_layout :
    (writeTextGeom 800 480 (-2) 2 .topRight (fixedI 40) (fixedI 20)).1 =
      (fixedI (800 - 1 - 2 - 40), fixedI (2 + 20)) ∧
    (writeTextGeom 800 480 (-2) 2 .topRight (fixedI 40) (fixedI 20)).2 = (757, 22) ∧
    ∀ advance2 ascent2 : Int,
      (writeTextGeom 800 480 757 22 .bottomLeft advance2 ascent2).1.1 =
        (writeTextGeom 800 480 (-2) 2 .topRight (fixedI 40) (fixedI 20)).1.1 := by
  refine ⟨by decide, by decide, ?_⟩
  intro advance2 ascent2
  simp only [writeTextGeom, fixedI]
  decide

/-! ## Photo scale and crop geometry (main.go `drawPhoto`)

The pre-loop geometry of `drawPhoto`: float64 ratios are modelled as exact
rationals (float64 division is correctly rounded; the claims here concern
which axis is cropped, and the concrete instances used are exactly
representable).  Go `int(f)` truncates toward zero and Go integer division
truncates toward zero (`Int.tdiv`). -/

/-- Go `image.Rectangle`: min and max corners. -/
structure goRect where
  minX : Int
  minY : Int
  maxX : Int
  maxY : Int
  deriving DecidableEq, Repr

/-- Go `scaleWidth := float64(srcWidth) / float64(dstWidth)`. -/
def scaleWidth (srcW : Int) (dstB : goRect) : ℚ :=
  (srcW : ℚ) / ((dstB.maxX - dstB.minX : Int) : ℚ)

/-- Go `scaleHeight := float64(srcHeight) / float64(dstHeight)`. -/
def scaleHeight (srcH : Int) (dstB : goRect) : ℚ :=
  (srcH : ℚ) / ((dstB.maxY - dstB.minY : Int) : ℚ)

/-- The scale factor and effective destination rectangle chosen by
`drawPhoto` before its pixel loop: `scaleWidth >= scaleHeight` keeps the
whole rectangle (the vertical centering is an unimplemented TODO in the
source); otherwise the horizontal slack is center-cropped via a
`clippedImage`. -/
def drawPhotoGeom (srcW srcH : Int) (dstB : goRect) : ℚ × goRect :=
  if scaleHeight srcH dstB ≤ scaleWidth srcW dstB then
    (scaleWidth srcW dstB, dstB)
  else
    let newWidth : Int := truncInt ((srcW : ℚ) / scaleHeight srcH dstB)
    let offset : Int := ((dstB.maxX - dstB.minX) - newWidth).tdiv 2
    (scaleHeight srcH dstB,
      { dstB with minX := dstB.minX + offset, maxX := dstB.maxX - offset })

/-- Modelled from the spec: "scale = max(srcW/Wd, srcH/Hd); the axis with
slack is center-cropped via a Clip view".  The spec's geometry crops the
vertical axis symmetrically to how the code crops the horizontal one; this
definition exists to be compared against `drawPhotoGeom`. -/
def specPhotoGeom (srcW srcH : Int) (dstB : goRect) : ℚ × goRect :=
  if scaleHeight srcH dstB ≤ scaleWidth srcW dstB then
    let newHeight : Int := truncInt ((srcH : ℚ) / scaleWidth srcW dstB)
    let offset : Int := ((dstB.maxY - dstB.minY) - newHeight).tdiv 2
    (scaleWidth srcW dstB,
      { dstB with minY := dstB.minY + offset, maxY := dstB.maxY - offset })
  else
    let newWidth : Int := truncInt ((srcW : ℚ) / scaleHeight srcH dstB)
    let offset : Int := ((dstB.maxX - dstB.minX) - newWidth).tdiv 2
    (scaleHeight srcH dstB,
      { dstB with minX := dstB.minX + offset, maxX := dstB.maxX - offset })

/-- C7 counterexample: a 1600x480 source into a 800x480 destination has
scale = max = 2 and vertical slack (the scaled image is 240 high), yet the
code keeps the full rectangle - the spec's center-crop of the slack axis
(to y in [120, 360)) does not happen.  The claim that "the axis with slack
is center-cropped" is false when the slack axis is vertical. -/
theorem C7_counterexample :
    drawPhotoGeom 1600 480 ⟨0, 0, 800, 480⟩ = (2, ⟨0, 0, 800, 480⟩) ∧
    specPhotoGeom 1600 480 ⟨0, 0, 800, 480⟩ = (2, ⟨0, 120, 800, 360⟩) ∧
    (drawPhotoGeom 1600 480 ⟨0, 0, 800, 480⟩).2 ≠
      (specPhotoGeom 1600 480 ⟨0, 0, 800, 480⟩).2 := by
  have hsw2 : scaleWidth 1600 ⟨0, 0, 800, 480⟩ = 2 := by
    norm_num [scaleWidth]
  have hsh1 : scaleHeight 480 ⟨0, 0, 800, 480⟩ = 1 := by
    norm_num [scaleHeight]
  have hcmp : scaleHeight 480 ⟨0, 0, 800, 480⟩ ≤ scaleWidth 1600 ⟨0, 0, 800, 480⟩ := by
    rw [hsw2, hsh1]
    norm_num
  have hnh : truncInt (((480 : Int) : ℚ) / scaleWidth 1600 ⟨0, 0, 800, 480⟩) = 240 := by
    rw [hsw2]
    have h240 : ((480 : Int) : ℚ) / 2 = ((240 : Int) : ℚ) := by norm_num
    rw [h240, truncInt, if_pos (by norm_num)]
    exact Int.floor_intCast 240
  have h1 : drawPhotoGeom 1600 480 ⟨0, 0, 800, 480⟩ = (2, ⟨0, 0, 800, 480⟩) := by
    rw [drawPhotoGeom, if_pos hcmp, hsw2]
  have h2 : specPhotoGeom 1600 480 ⟨0, 0, 800, 480⟩ = (2, ⟨0, 120, 800, 360⟩) := by
    rw [specPhotoGeom, if_pos hcmp]
    simp only [hnh, hsw2]
    norm_num
    decide
  exact ⟨h1, h2, by rw [h1, h2]; decide⟩

lemma truncInt_eq_floor {q : ℚ} (h : 0 ≤ q) : truncInt q = ⌊q⌋ := if_pos h

/-- C7 amended: the scale factor is always max(srcW/Wd, srcH/Hd) (a single
factor for both axes, so nothing is stretched); when the height needs more
shrinking (srcW/Wd < srcH/Hd) the horizontal slack is center-cropped via a
clip view - equal margins on both sides, width within one pixel of the
scaled source width; but when the width needs more shrinking the rectangle
is kept whole: the vertical centering is an unimplemented TODO and no crop
happens on the vertical slack axis. -/
theorem C7_amended_scale_crop (srcW srcH : Int) (dstB : goRect)
    (hsw : 0 ≤ srcW) (_hsh : 0 ≤ srcH)
    (hW : 0 < dstB.maxX - dstB.minX) (hH : 0 < dstB.maxY - dstB.minY) :
    (drawPhotoGeom srcW srcH dstB).1 =
      max (scaleWidth srcW dstB) (scaleHeight srcH dstB) ∧
    (scaleHeight srcH dstB ≤ scaleWidth srcW dstB →
      (drawPhotoGeom srcW srcH dstB).2 = dstB) ∧
    (scaleWidth srcW dstB < scaleHeight srcH dstB →
      (drawPhotoGeom srcW srcH dstB).2.minY = dstB.minY ∧
      (drawPhotoGeom srcW srcH dstB).2.maxY = dstB.maxY ∧
      (drawPhotoGeom srcW srcH dstB).2.minX - dstB.minX =
        dstB.maxX - (drawPhotoGeom srcW srcH dstB).2.maxX ∧
      truncInt ((srcW : ℚ) / scaleHeight srcH dstB) ≤
        (drawPhotoGeom srcW srcH dstB).2.maxX - (drawPhotoGeom srcW srcH dstB).2.minX ∧
      (drawPhotoGeom srcW srcH dstB).2.maxX - (drawPhotoGeom srcW srcH dstB).2.minX ≤
        truncInt ((srcW : ℚ) / scaleHeight srcH dstB) + 1) := by
  have hWq : (0 : ℚ) < ((dstB.maxX - dstB.minX : Int) : ℚ) := by exact_mod_cast hW
  have hHq : (0 : ℚ) < ((dstB.maxY - dstB.minY : Int) : ℚ) := by exact_mod_cast hH
  by_cases hcmp : scaleHeight srcH dstB ≤ scaleWidth srcW dstB
  · rw [drawPhotoGeom, if_pos hcmp]
    exact ⟨(max_eq_left hcmp).symm, fun _ => rfl,
      fun hlt => absurd hcmp (not_le.mpr hlt)⟩
  · have hlt : scaleWidth srcW dstB < scaleHeight srcH dstB := not_le.mp hcmp
    have hscaleW0 : 0 ≤ scaleWidth srcW dstB :=
      div_nonneg (by exact_mod_cast hsw) hWq.le
    have hscaleH0 : 0 < scaleHeight srcH dstB := lt_of_le_of_lt hscaleW0 hlt
    have hq0 : 0 ≤ (srcW : ℚ) / scaleHeight srcH dstB :=
      div_nonneg (by exact_mod_cast hsw) hscaleH0.le
    have hq_lt : (srcW : ℚ) / scaleHeight srcH dstB <
        ((dstB.maxX - dstB.minX : Int) : ℚ) := by
      rw [div_lt_iff₀ hscaleH0, scaleHeight, ← mul_div_assoc, lt_div_iff₀ hHq]
      have h' := (div_lt_div_iff₀ hWq hHq).mp hlt
      ring_nf
      ring_nf at h'
      linarith
    have hnewW : truncInt ((srcW : ℚ) / scaleHeight srcH dstB) <
        dstB.maxX - dstB.minX := by
      rw [truncInt_eq_floor hq0]
      exact Int.floor_lt.mpr hq_lt
    simp only [drawPhotoGeom, if_neg hcmp]
    refine ⟨(max_eq_right hlt.le).symm, fun hle => absurd hle hcmp, fun _ => ?_⟩
    have hd0 : 0 ≤ dstB.maxX - dstB.minX - truncInt ((srcW : ℚ) / scaleHeight srcH dstB) := by
      omega
    rw [Int.tdiv_eq_ediv hd0 (by norm_num)]
    refine ⟨trivial, trivial, by omega, by omega, by omega⟩

/-- C7 witness: the scale-is-max part at the concrete 1600x480 source. -/
theorem C7_witness :
    (drawPhotoGeom 1600 480 ⟨0, 0, 800, 480⟩).1 =
      max (scaleWidth 1600 ⟨0, 0, 800, 480⟩) (scaleHeight 480 ⟨0, 0, 800, 480⟩) :=
  (C7_amended_scale_crop 1600 480 ⟨0, 0, 800, 480⟩
    (by decide) (by decide) (by decide) (by decide)).1

end Kitchenthing
